import Mathlib

/-!
Verification development for the SSH terminal subsystem of the site server:
the virtual filesystem (`src/ssh/content.rs`), the line-discipline shell
(`src/ssh/terminal.rs`), the vi-like pager (`src/ssh/apps.rs`) and the
command dispatch of the session (`src/ssh/session.rs`), shallowly embedded
in Lean.  Strings are modelled as lists of characters, byte streams as
lists of natural numbers, machine integers as `Nat`/`Int` with explicit
wrapping where the source casts, and every panicking or diverging source
path as `Option.none`.
-/

set_option maxRecDepth 20000

/-- Strings of the source program, modelled as lists of characters. -/
abbrev Str := List Char

/-- Rust's `str::split(sep)` on a single-character separator: splits at every
occurrence, keeping empty segments (`"".split` yields one empty segment). -/
def splitSep (sep : Char) : Str → List Str
  | [] => [[]]
  | c :: rest =>
    if c = sep then [] :: splitSep sep rest
    else
      match splitSep sep rest with
      | [] => [[c]]
      | r :: rs => (c :: r) :: rs

/-- Rust's `str::split("\r\n")` used by `File::new`: splits at every
occurrence of the two-character terminator, scanning left to right. -/
def splitCRLF : Str → List Str
  | [] => [[]]
  | '\r' :: '\n' :: rest => [] :: splitCRLF rest
  | c :: rest =>
    match splitCRLF rest with
    | [] => [[c]]
    | r :: rs => (c :: r) :: rs

/-- Rust's `str::rsplit_once(sep)`: splits at the last occurrence of `sep`,
returning the part before and the part after, or `none` if `sep` is absent. -/
def rsplitOnce (sep : Char) : Str → Option (Str × Str)
  | [] => none
  | c :: rest =>
    match rsplitOnce sep rest with
    | some (b, a) => some (c :: b, a)
    | none => if c = sep then some ([], rest) else none

/-- Lookup in an association list, modelling `BTreeMap::get`. -/
def assocLookup {α : Type} (k : Str) : List (Str × α) → Option α
  | [] => none
  | (k₂, v) :: rest => if k₂ = k then some v else assocLookup k rest

/-- A file of the virtual filesystem (`File` in `src/ssh/content.rs`):
raw contents plus the decomposition into lines. -/
structure File where
  contents : Str
  lines : List Str
deriving DecidableEq, Repr

/-- Constructor `File::new`: split the contents on the CRLF terminator. -/
def File.new (contents : Str) : File :=
  { contents := contents, lines := splitCRLF contents }

/-- Accessor `File::raw_contents`. -/
def File.rawContents (f : File) : Str := f.contents

/-- A directory of the virtual filesystem (`Directory` in
`src/ssh/content.rs`); subdirectory and file maps are association lists
standing for the source's ordered maps. -/
structure Directory where
  path : Str
  parent : Option Nat
  directories : List (Str × Nat)
  files : List (Str × File)
deriving DecidableEq, Repr

/-- The whole rendered content (`SshContent`): the arena of directories,
root first. -/
structure SshContent where
  directories : List Directory
deriving DecidableEq, Repr

/-- The segment-walking loop body of `SshContent::dir_at`: processes the
remaining path segments starting from directory `d`.  A dangling arena
index (a panic in the source) is modelled as `none`. -/
def dirAtAux (c : SshContent) : Directory → List Str → Option Directory
  | d, [] => some d
  | d, part :: rest =>
    if part = [] ∨ part = ['.'] then dirAtAux c d rest
    else if part = ['.', '.'] then
      match d.parent with
      | some p =>
        match c.directories.get? p with
        | some d₂ => dirAtAux c d₂ rest
        | none => none
      | none => dirAtAux c d rest
    else
      match assocLookup part d.directories with
      | some i =>
        match c.directories.get? i with
        | some d₂ => dirAtAux c d₂ rest
        | none => none
      | none => none

/-- `SshContent::dir_at`: resolve a `/`-separated path starting from the
root directory (arena index 0). -/
def dirAt (c : SshContent) (path : Str) : Option Directory :=
  match c.directories.get? 0 with
  | some root => dirAtAux c root (splitSep '/' path)
  | none => none

/-- `SshContent::get_file`: split the path into directory part and file
name at the last slash; a relative directory part is prefixed with the
current directory's stored path (with no separator added), an absolute or
empty one is used as is; then resolve the directory and look up the file. -/
def getFile (c : SshContent) (current_dir : Nat) (full_path : Str) : Option File :=
  match rsplitOnce '/' full_path with
  | some (directory, filename) =>
    let path :=
      if directory.head? = some '/' ∨ directory = [] then directory
      else (((c.directories.get? current_dir).map Directory.path).getD []) ++ directory
    (dirAt c path).bind fun d => assocLookup filename d.files
  | none =>
    let path := ((c.directories.get? current_dir).map Directory.path).getD []
    (dirAt c path).bind fun d => assocLookup full_path d.files

/-- `SshContent::add_child`: append a fresh child directory under the
parent at index `parent_i`; the child's path is the parent's path, then a
slash only when the parent is not the root, then the child's name.
Returns the updated content and the child's index; `none` models the
source's panic on a dangling parent index. -/
def addChild (c : SshContent) (parent_i : Nat) (child_name : Str) :
    Option (SshContent × Nat) :=
  let child_i := c.directories.length
  (c.directories.get? parent_i).map fun parent =>
    let child : Directory :=
      { path := (parent.path ++ if parent_i ≠ 0 then ['/'] else []) ++ child_name
        parent := some parent_i
        directories := []
        files := [] }
    let parent₂ := { parent with directories := parent.directories ++ [(child_name, child_i)] }
    (⟨(c.directories.set parent_i parent₂) ++ [child]⟩, child_i)

/-- Well-formedness of a content arena: it is nonempty and every parent
pointer and child index stays inside the arena.  Contents built by
`SshContent::new` satisfy this by construction. -/
def ContentWf (c : SshContent) : Prop :=
  c.directories ≠ [] ∧
    ∀ d ∈ c.directories,
      (∀ p ∈ d.parent.toList, p < c.directories.length) ∧
      ∀ pr ∈ d.directories, pr.2 < c.directories.length

instance (c : SshContent) : Decidable (ContentWf c) := by
  unfold ContentWf
  exact inferInstance

/-- The line-discipline shell (`Shell` in `src/ssh/terminal.rs`).  Lines
are lists of characters; input bytes are natural numbers below 256. -/
structure Shell where
  cursor : Nat
  history : List Str
  current_history : List Str
  history_index : Nat
  escape : List Nat
deriving DecidableEq, Repr

/-- The initial shell state (`Shell::default`). -/
def Shell.default : Shell :=
  { cursor := 0, history := [], current_history := [[]], history_index := 0, escape := [] }

/-- The while-loop of `Shell::get_line` that lazily materialises working
copies of history entries until the browse index is covered: while the
working copy is not longer than the index, push a clone of
`history[history.len - current.len]`.  An out-of-range access (a source
panic, unreachable from reachable shell states) is modelled by `[]`. -/
def extendCurrent (history : List Str) (cur : List Str) (idx : Nat) : List Str :=
  if cur.length ≤ idx then
    extendCurrent history (cur ++ [(history.get? (history.length - cur.length)).getD []]) idx
  else cur
termination_by idx + 1 - cur.length
decreasing_by
  simp only [List.length_append, List.length_cons, List.length_nil]
  omega

/-- `Shell::get_line`: clamp the history browse index to the stored
history's length, then extend the working copies to cover it. -/
def getLine (s : Shell) : Shell :=
  let idx := min s.history_index s.history.length
  { s with history_index := idx
           current_history := extendCurrent s.history s.current_history idx }

/-- The editable line the shell is currently pointing at. -/
def currentLine (s : Shell) : Str :=
  (s.current_history.get? s.history_index).getD []

/-- `Shell::process_escape`: accumulate one byte of an escape sequence and,
once three bytes are buffered, dispatch on the exact triplet (left, right,
up, down arrows). -/
def processEscape (s : Shell) (data : Nat) : Shell × List Nat :=
  let s := { s with escape := s.escape ++ [data] }
  if s.escape.length = 3 then
    let s := getLine s
    let line := currentLine s
    let escape := s.escape
    let s := { s with escape := [] }
    if escape = [27, 91, 68] then
      -- left arrow
      if s.cursor > 0 then ({ s with cursor := s.cursor - 1 }, [27, 91, 68])
      else (s, [])
    else if escape = [27, 91, 67] then
      -- right arrow
      if s.cursor < line.length then ({ s with cursor := s.cursor + 1 }, [27, 91, 67])
      else (s, [])
    else if escape = [27, 91, 65] ∨ escape = [27, 91, 66] then
      -- up or down arrow: move in history
      if escape.get? 2 = some 66 ∧ s.history_index = 0 then (s, [])
      else
        let s :=
          if escape.get? 2 = some 65 then { s with history_index := s.history_index + 1 }
          else { s with history_index := s.history_index - 1 }
        let response :=
          List.replicate s.cursor 8 ++ List.replicate line.length 32 ++
            List.replicate line.length 8
        let s := getLine s
        let line₂ := currentLine s
        ({ s with cursor := line₂.length }, response ++ line₂.map Char.toNat)
    else (s, [])
  else (s, [])

/-- `Shell::process`: one byte of input, returning the new state, the echo
bytes and an optional completed command. -/
def shellProcess (s : Shell) (data : Nat) : Shell × List Nat × Option Str :=
  if s.escape ≠ [] then
    let (s₂, out) := processEscape s data
    (s₂, out, none)
  else
    let s := getLine s
    let line := currentLine s
    if data = 13 ∨ data = 10 then
      -- newline: run the command and reset
      ({ s with history := s.history ++ [line]
                current_history := [[]]
                history_index := 0
                cursor := 0 },
        [13, 10], some line)
    else if data = 8 ∨ data = 127 then
      -- backspace
      if s.cursor > 0 then
        let line₂ := line.eraseIdx (s.cursor - 1)
        let s₂ := { s with current_history := s.current_history.set s.history_index line₂
                           cursor := s.cursor - 1 }
        if s₂.cursor = line₂.length then (s₂, [8, 32, 8], none)
        else
          (s₂,
            8 :: (line₂.drop s₂.cursor).map Char.toNat ++ 32 ::
              List.replicate (line₂.length - s₂.cursor + 1) 8,
            none)
      else (s, [], none)
    else if data = 3 then
      -- CTRL-C: clear the line and reset without running a command
      ({ s with current_history := [[]], history_index := 0, cursor := 0 },
        [13, 10], some [])
    else if data = 4 then
      -- CTRL-D: close the session
      (s, [], some ['e', 'x', 'i', 't'])
    else if data = 1 then
      -- CTRL-A: move the cursor to the start of the line
      ({ s with cursor := 0 }, List.replicate s.cursor 8, none)
    else if data = 5 then
      -- CTRL-E: move the cursor to the end of the line
      ({ s with cursor := line.length }, List.replicate (line.length - s.cursor) 8, none)
    else if data = 27 then
      -- escape sequence start
      ({ s with escape := [27] }, [], none)
    else if 32 ≤ data then
      -- printable character: insert and echo
      let line₂ := line.insertIdx s.cursor (Char.ofNat data)
      let s₂ := { s with current_history := s.current_history.set s.history_index line₂
                         cursor := s.cursor + 1 }
      if s₂.cursor < line₂.length then
        (s₂,
          data :: (line₂.drop s₂.cursor).map Char.toNat ++
            List.replicate (line₂.length - s₂.cursor) 8,
          none)
      else (s₂, [data], none)
    else (s, [], none)

/-- Feed a sequence of bytes to a shell, keeping only the state. -/
def processSeq (s : Shell) (input : List Nat) : Shell :=
  input.foldl (fun s₂ b => (shellProcess s₂ b).1) s

/-- Feed a sequence of bytes to a freshly created shell. -/
def processAll (input : List Nat) : Shell :=
  processSeq Shell.default input

/-- `TerminalUtils::move_cursor`: the 1-indexed cursor-position escape
sequence, as characters. -/
def moveCursor (x y : Nat) : Str :=
  '\x1b' :: '[' :: (Nat.repr (y + 1)).data ++ ';' :: (Nat.repr (x + 1)).data ++ ['H']

/-- `TerminalUtils::clear`: the clear-screen escape sequence. -/
def clearScreen : Str := ['\x1b', '[', '2', 'J']

/-- The state of a running pager (`Vim` in `src/ssh/apps.rs`).  Pairs keep
the source's component order: `cursor_pos` is (x, y) in file coordinates,
`scroll_pos` is (top line, sub-line wrap offset), `term_size` is
(width, height) in characters. -/
structure Vim where
  cursor_pos : Nat × Nat
  scroll_pos : Nat × Nat
  term_size : Nat × Nat
  available_height : Nat
  file : File
deriving DecidableEq, Repr

/-- Row contents produced by the body loop of `Vim::render`: one list
entry per screen row.  A row on a line whose remaining length reaches one
full width emits exactly `width` characters and advances the intra-line
offset; otherwise the remainder is emitted and the next file line starts
at offset 0; past the last line each row is the `~` placeholder. -/
def renderRows (width : Nat) : Nat → List Str → Nat → List Str
  | 0, _, _ => []
  | rows + 1, [], start => ['~'] :: renderRows width rows [] start
  | rows + 1, line :: rest, start =>
    if start + width ≤ line.length then
      (line.drop start).take width :: renderRows width rows (line :: rest) (start + width)
    else
      line.drop start :: renderRows width rows rest 0

/-- The body loop of `Vim::render` with the per-row cursor moves
interleaved, producing the emitted characters: for each row index `y`,
move the cursor to column 0 of row `y` and emit that row's content. -/
def renderBody (width : Nat) : Nat → Nat → List Str → Nat → Str
  | _, 0, _, _ => []
  | y, rows + 1, [], start =>
    moveCursor 0 y ++ '~' :: renderBody width (y + 1) rows [] start
  | y, rows + 1, line :: rest, start =>
    if start + width ≤ line.length then
      moveCursor 0 y ++ (line.drop start).take width ++
        renderBody width (y + 1) rows (line :: rest) (start + width)
    else
      moveCursor 0 y ++ line.drop start ++ renderBody width (y + 1) rows rest 0

/-- `Vim::get_cursor_screen`: screen coordinates of the file cursor for
the current scroll position, `(0, -1)` when the cursor lies above the
scroll window. -/
def getCursorScreen (v : Vim) : Int × Int :=
  let width := v.term_size.1
  if v.cursor_pos.2 < v.scroll_pos.1 ∨
      (v.cursor_pos.2 = v.scroll_pos.1 ∧ v.cursor_pos.1 < v.scroll_pos.2 * width) then
    (0, -1)
  else
    let between := (v.file.lines.drop v.scroll_pos.1).take (v.cursor_pos.2 - v.scroll_pos.1)
    let screen_y : Int :=
      between.foldl (fun acc line => acc + (line.length : Int) / (width : Int) + 1)
        (-(v.scroll_pos.2 : Int))
    let effective_x : Int :=
      min (v.cursor_pos.1 : Int)
        ((((v.file.lines.get? v.cursor_pos.2).getD []).length.max 1 : Int) - 1)
    (effective_x % (width : Int), screen_y + effective_x / (width : Int))

/-- `Vim::render`: clear the screen, emit the body rows beginning at the
scrolled location, write the status hint, then move the cursor to its
computed screen position (cast to `u16` as in the source). -/
def render (v : Vim) : Str :=
  let width := v.term_size.1
  let body :=
    clearScreen ++ moveCursor 0 0 ++
      renderBody width 0 v.available_height (v.file.lines.drop v.scroll_pos.1)
        (v.scroll_pos.2 * width)
  let sxy := getCursorScreen v
  body ++ ("\r\n: Ctrl-C to quit").data ++
    moveCursor (sxy.1.toNat % 65536) (sxy.2.toNat % 65536)

/-- The rescroll loop of `Vim::update_cursor`, with explicit fuel: `none`
models divergence (fuel exhausted) as well as the source's panics (scroll
underflow at the top, out-of-range scroll line, zero terminal width making
the screen mapping divide by zero).  The boolean records whether any
iteration scrolled, forcing a full re-render. -/
def updateCursorLoop : Nat → Vim → Bool → Option (Vim × Bool)
  | 0, _, _ => none
  | fuel + 1, v, rerender =>
    if v.term_size.1 = 0 then none
    else
      if (getCursorScreen v).2 < 0 then
        -- must scroll up, first by subline then by line
        if v.scroll_pos.2 > 0 then
          updateCursorLoop fuel { v with scroll_pos := (v.scroll_pos.1, v.scroll_pos.2 - 1) } true
        else if v.scroll_pos.1 > 0 then
          updateCursorLoop fuel { v with scroll_pos := (v.scroll_pos.1 - 1, v.scroll_pos.2) } true
        else none
      else if (v.available_height : Int) ≤ (getCursorScreen v).2 then
        -- must scroll down, by subline if the line has an unshown segment
        match v.file.lines.get? v.scroll_pos.1 with
        | none => none
        | some line =>
          if (v.scroll_pos.2 + 1) * v.term_size.1 < line.length then
            updateCursorLoop fuel { v with scroll_pos := (v.scroll_pos.1, v.scroll_pos.2 + 1) } true
          else
            updateCursorLoop fuel { v with scroll_pos := (v.scroll_pos.1 + 1, 0) } true
      else some (v, rerender)

/-- `Vim::update_cursor`: run the rescroll loop, then either fully
re-render (some scroll happened) or emit a single cursor-move escape. -/
def vimUpdateCursor (fuel : Nat) (v : Vim) : Option (Vim × Str) :=
  (updateCursorLoop fuel v false).map fun p =>
    if p.2 then (p.1, render p.1)
    else
      let sxy := getCursorScreen p.1
      (p.1, moveCursor (sxy.1.toNat % 65536) (sxy.2.toNat % 65536))

/-- `Vim::data`: process one input byte.  Movement keys adjust the cursor
and rescroll; the byte `i` (inside the `h..=l` range but without a match
arm) hits the source's `unreachable!()` and is modelled as `none`; all
other bytes are ignored. -/
def vimData (fuel : Nat) (data : Nat) (v : Vim) : Option (Vim × Str) :=
  if 104 ≤ data ∧ data ≤ 108 then
    if data = 104 ∨ data = 108 then
      -- 'h' / 'l': horizontal movement
      let delta : Int := if data = 104 then -1 else 1
      match v.file.lines.get? v.cursor_pos.2 with
      | none => none
      | some line =>
        let last_char := line.length.max 1 - 1
        if v.cursor_pos.1 ≥ last_char then
          if delta < 0 then
            let new_x := ((last_char : Int) + delta).toNat
            vimUpdateCursor fuel { v with cursor_pos := (new_x, v.cursor_pos.2) }
          else some (v, [])
        else
          let new_x := ((v.cursor_pos.1 : Int) + delta).toNat
          vimUpdateCursor fuel { v with cursor_pos := (new_x, v.cursor_pos.2) }
    else if data = 106 ∨ data = 107 then
      -- 'j' / 'k': vertical movement, clamped to the file's range
      let delta : Int := if data = 106 then 1 else -1
      if v.file.lines.length = 0 then none
      else
        let new_y := min (max ((v.cursor_pos.2 : Int) + delta) 0) ((v.file.lines.length : Int) - 1)
        vimUpdateCursor fuel { v with cursor_pos := (v.cursor_pos.1, new_y.toNat) }
    else none
  else if data = 36 then
    -- '$': move to the end of the line via a huge sentinel (usize::MAX / 4)
    vimUpdateCursor fuel { v with cursor_pos := (4611686018427387903, v.cursor_pos.2) }
  else some (v, [])

/-- `Vim::resize`: store the new terminal size (the source truncates the
`u32` dimensions to `u16`), recompute the usable height, rescroll to the
cursor and fully re-render.  A zero height underflows in the source and is
modelled as `none`. -/
def vimResize (fuel : Nat) (width height : Nat) (v : Vim) : Option (Vim × Str) :=
  if height = 0 then none
  else
    let v := { v with term_size := (width % 65536, height % 65536)
                      available_height := height - 1 }
    (vimUpdateCursor fuel v).map fun p => (p.1, p.2 ++ render p.1)

/-- The pager state built by `Vim::startup` for a file and terminal size:
cursor and scroll at the origin, usable height one less than the terminal
height. -/
def vimInit (f : File) (w h : Nat) : Vim :=
  { cursor_pos := (0, 0)
    scroll_pos := (0, 0)
    term_size := (w, h)
    available_height := h - 1
    file := f }

/-- The welcome banner (`WELCOME_MESSAGE` in `src/ssh/content.rs`). -/
def welcomeMessage : Str :=
  ("Welcome to the SSH version of my website! This is very much a work in progress, but I hope you enjoy it nonetheless!\r\nTo navigate, use the 'ls' and 'cd' commands to see the available pages and 'cat' or 'vi' to view them.\r\nIf you have any feedback, use the 'msg' command to send it (or view any replies to messages you've sent).\r\nTo see this message again, just use `help`, and when you're ready to go, type 'exit' or 'logout' (or Ctrl-D).\r\n").data

/-- The per-connection session state (`SshSession` in
`src/ssh/session.rs`), restricted to the fields the data path reads: the
transport bookkeeping (id and channel handles) is not modelled. -/
structure SshSession where
  username : Str
  content : SshContent
  current_dir : Nat
  term_size : Nat × Nat
  running_app : Option Vim
  shell : Shell
deriving DecidableEq, Repr

/-- `SshSession::prompt`: `"<username>@<domain>:<virtual-path>> "`, the
domain coming from the process-wide configuration. -/
def prompt (domain : Str) (s : SshSession) : Str :=
  s.username ++ '@' :: domain ++
    ':' :: ((s.content.directories.get? s.current_dir).map Directory.path).getD [] ++
    ('>' :: [' '])

/-- `Vim::startup`: take the word after the command name as a path, look
the file up relative to the session's current directory, and on success
build the pager state and its initial full render.  Failures (missing
argument, unknown file) return the error text for the shell to print;
`none` models the source's panics on an unrepresentable terminal size. -/
def vimStartup (s : SshSession) (command : Str) : Option (Except Str (Vim × Str)) :=
  match (splitSep ' ' command).get? 1 with
  | none => some (Except.error ("vi: usage: vi <filename>\r\n").data)
  | some full_path =>
    match getFile s.content s.current_dir full_path with
    | none =>
      some (Except.error (("vi: cannot open \"").data ++ full_path ++
        ("\": No such file\r\n").data))
    | some file =>
      if s.term_size.1 < 65536 ∧ s.term_size.2 < 65536 ∧ 1 ≤ s.term_size.2 then
        let vim := vimInit file s.term_size.1 s.term_size.2
        some (Except.ok (vim, render vim))
      else none

/-- The command dispatch of `SshSession::data` for one completed command
line (the session is in shell mode, so no app is running): match on the
first word, run the command, and reprint the prompt unless a full-screen
app was just started.  The returned boolean reports a disconnect
(`exit`/`logout`).  `none` models panicking paths inside `Vim::startup`. -/
def sessionRunCommand (domain : Str) (s : SshSession) (command : Str) :
    Option (SshSession × Str × Bool) :=
  let command_name := ((splitSep ' ' command).get? 0).getD []
  if command_name = ("exit").data ∨ command_name = ("logout").data then
    some (s, [], true)
  else
    let step : Option (SshSession × Str) :=
      if command_name = ("help").data then some (s, welcomeMessage)
      else if command_name = ("ls").data then
        let dir := ((s.content.directories.get? s.current_dir).getD
          { path := [], parent := none, directories := [], files := [] })
        some (s,
          (dir.directories.map fun pr => pr.1 ++ ('\r' :: ['\n'])).flatten ++
            (dir.files.map fun pr => pr.1 ++ ('\r' :: ['\n'])).flatten)
      else if command_name = ("cd").data then
        let dir := ((splitSep ' ' command).get? 1).getD []
        let current := ((s.content.directories.get? s.current_dir).getD
          { path := [], parent := none, directories := [], files := [] })
        if dir = ['.', '.'] then
          match current.parent with
          | some id => some ({ s with current_dir := id }, [])
          | none => some (s, [])
        else
          match assocLookup dir current.directories with
          | some id => some ({ s with current_dir := id }, [])
          | none => some (s, ('\x22' :: dir) ++ ("\": no such directory\r\n").data)
      else if command_name = ("cat").data then
        match (splitSep ' ' command).get? 1 with
        | none => some (s, ("cat: usage: cat <filename>\r\n").data)
        | some path =>
          match getFile s.content s.current_dir path with
          | none => some (s, ("cat: cannot open \"").data ++ path ++
              ("\": No such file\r\n").data)
          | some file => some (s, file.rawContents)
      else if command_name = ("vi").data then
        match vimStartup s command with
        | none => none
        | some (Except.ok (app, resp)) => some ({ s with running_app := some app }, resp)
        | some (Except.error err) => some (s, err)
      else if command_name = [] then some (s, [])
      else some (s, command ++ (": command not found\r\n").data)
    step.map fun p =>
      if p.1.running_app.isNone then (p.1, p.2 ++ prompt domain p.1, false)
      else (p.1, p.2, false)

/-- One path segment of the resolution walk, written after the
specification's wording for comparison with `dirAtAux`: an empty segment
or `.` leaves the directory unchanged, `..` moves to the parent and is a
no-op at the root (no parent), and any other segment descends into the
named child, failing exactly when no child of that name exists. -/
def resolveStep (c : SshContent) (d : Directory) (seg : Str) : Option Directory :=
  if seg = [] ∨ seg = ['.'] then some d
  else if seg = ['.', '.'] then some ((d.parent.bind fun p => c.directories.get? p).getD d)
  else (assocLookup seg d.directories).map fun i => (c.directories.get? i).getD d

/-- Walk a list of path segments with `resolveStep`. -/
def resolveSpecAux (c : SshContent) : Directory → List Str → Option Directory
  | d, [] => some d
  | d, seg :: rest => (resolveStep c d seg).bind fun d₂ => resolveSpecAux c d₂ rest

/-- Specification-side path resolution: split on `/` and walk the
segments from the root directory. -/
def resolveSpec (c : SshContent) (path : Str) : Option Directory :=
  (c.directories.get? 0).bind fun root => resolveSpecAux c root (splitSep '/' path)

/-- The shell's state invariant: the working history is nonempty and no
longer than the stored history plus the live line, the browse index points
into it, and the cursor stays within the current editable line. -/
def ShellInv (s : Shell) : Prop :=
  s.current_history ≠ [] ∧
    s.history_index < s.current_history.length ∧
    s.current_history.length ≤ s.history.length + 1 ∧
    s.cursor ≤ (currentLine s).length

instance (s : Shell) : Decidable (ShellInv s) := by
  unfold ShellInv
  exact inferInstance

/-- `n` consecutive up-arrow escape sequences. -/
def upSeq (n : Nat) : List Nat := (List.replicate n [27, 91, 65]).flatten

/-- `n` consecutive down-arrow escape sequences. -/
def dnSeq (n : Nat) : List Nat := (List.replicate n [27, 91, 66]).flatten

/-- Pager states reachable from a freshly started pager on some file, by
input bytes (`Vim::data`) and resizes (`Vim::resize`) that complete
without panicking.  The starting terminal size is exactly what
`Vim::startup` accepts without panicking: representable in `u16` and
nonzero in both dimensions (a zero height underflows computing the
usable height, and a zero width makes the initial render's screen
mapping divide by zero); in particular a one-row terminal, with zero
usable rows, is accepted. -/
inductive VimReach : Vim → Prop
  | start (contents : Str) (w h : Nat) (hw : 1 ≤ w) (hw₂ : w < 65536)
      (hh : 1 ≤ h) (hh₂ : h < 65536) :
      VimReach (vimInit (File.new contents) w h)
  | key (v v₂ : Vim) (out : Str) (fuel data : Nat) :
      VimReach v → vimData fuel data v = some (v₂, out) → VimReach v₂
  | resize (v v₂ : Vim) (out : Str) (fuel w h : Nat) :
      VimReach v → vimResize fuel w h v = some (v₂, out) → VimReach v₂

/-- A two-line example file for the pager scenarios. -/
def exFile : File := File.new (("abc\r\ndefgh").data)

/-- A small pager state used as a concrete input for the cursor-update
idempotence claim. -/
def exVim : Vim := vimInit (File.new (("ab").data)) 2 2

/-- A pager state over a two-line file, cursor at the origin. -/
def exVimTwoLines : Vim :=
  { cursor_pos := (0, 0), scroll_pos := (0, 0), term_size := (2, 2)
    available_height := 1, file := File.new (("a\r\nb").data) }

/-- The same pager state with the cursor on the second line. -/
def exVimTwoLinesMoved : Vim := { exVimTwoLines with cursor_pos := (0, 1) }

/-- A small example content arena: root, a `projects` directory, and a
`sub` directory holding one file. -/
def exContent : SshContent :=
  ⟨[{ path := ['/'], parent := none
      directories := [(("projects").data, 1)], files := [] },
    { path := ("/projects").data, parent := some 0
      directories := [(("sub").data, 2)], files := [] },
    { path := ("/projects/sub").data, parent := some 1
      directories := [], files := [(("f.txt").data, File.new (("q").data))] }]⟩

/-- An example session over `exContent`, sitting at the root with no app
running. -/
def exSession : SshSession :=
  { username := ("u").data, content := exContent, current_dir := 0
    term_size := (80, 24), running_app := none, shell := Shell.default }

/-- An example shell with two stored history entries and an uncommitted
line being edited at depth 0. -/
def exShell : Shell :=
  { cursor := 2, history := [("ab").data, ("cd").data]
    current_history := [("xy").data], history_index := 0, escape := [] }

/-- The result of adding a child directory under `/projects` in the
example content. -/
def exAddChild : SshContent × Nat :=
  (addChild exContent 1 (("newdir").data)).getD (exContent, 0)

/-- An example shell browsing a historical entry (depth 1, with the
working copy already materialised), about to edit it. -/
def exShellBrowsing : Shell :=
  { cursor := 2, history := [("ab").data, ("cd").data]
    current_history := [("xy").data, ("cd").data], history_index := 1, escape := [] }

/-- The rescroll loop of `Vim::update_cursor` only returns once the
cursor's screen row lies inside the usable window, and it changes nothing
but the scroll position; the terminal width is nonzero whenever it
returns. -/
theorem updateCursorLoop_some {fuel : Nat} {v : Vim} {r r₂ : Bool} {v₂ : Vim}
    (h : updateCursorLoop fuel v r = some (v₂, r₂)) :
    0 ≤ (getCursorScreen v₂).2 ∧ (getCursorScreen v₂).2 < (v₂.available_height : Int) ∧
      v₂.cursor_pos = v.cursor_pos ∧ v₂.term_size = v.term_size ∧
      v₂.available_height = v.available_height ∧ v₂.file = v.file ∧
      v₂.term_size.1 ≠ 0 := by
  induction fuel generalizing v r with
  | zero => simp [updateCursorLoop] at h
  | succ n ih =>
    unfold updateCursorLoop at h
    by_cases h0 : v.term_size.1 = 0
    · simp [h0] at h
    · rw [if_neg h0] at h
      by_cases h1 : (getCursorScreen v).2 < 0
      · rw [if_pos h1] at h
        by_cases h2 : v.scroll_pos.2 > 0
        · rw [if_pos h2] at h
          simpa using ih h
        · rw [if_neg h2] at h
          by_cases h3 : v.scroll_pos.1 > 0
          · rw [if_pos h3] at h
            simpa using ih h
          · rw [if_neg h3] at h
            exact absurd h (by simp)
      · rw [if_neg h1] at h
        by_cases h4 : (v.available_height : Int) ≤ (getCursorScreen v).2
        · rw [if_pos h4] at h
          cases hl : v.file.lines.get? v.scroll_pos.1 with
          | none => rw [hl] at h; exact absurd h (by simp)
          | some line =>
            rw [hl] at h
            dsimp only at h
            by_cases h5 : (v.scroll_pos.2 + 1) * v.term_size.1 < line.length
            · rw [if_pos h5] at h
              simpa using ih h
            · rw [if_neg h5] at h
              simpa using ih h
        · rw [if_neg h4] at h
          obtain ⟨rfl, rfl⟩ : v = v₂ ∧ r = r₂ := by
            simpa using h
          exact ⟨by omega, by omega, rfl, rfl, rfl, rfl, h0⟩

/-- `Vim::update_cursor` establishes the cursor-onscreen invariant and
changes nothing but the scroll position. -/
theorem vimUpdateCursor_some {fuel : Nat} {v v₂ : Vim} {out : Str}
    (h : vimUpdateCursor fuel v = some (v₂, out)) :
    0 ≤ (getCursorScreen v₂).2 ∧ (getCursorScreen v₂).2 < (v₂.available_height : Int) ∧
      v₂.cursor_pos = v.cursor_pos ∧ v₂.term_size = v.term_size ∧
      v₂.available_height = v.available_height ∧ v₂.file = v.file ∧
      v₂.term_size.1 ≠ 0 := by
  unfold vimUpdateCursor at h
  cases hl : updateCursorLoop fuel v false with
  | none => rw [hl] at h; exact absurd h (by simp)
  | some p =>
    rw [hl] at h
    have hp := updateCursorLoop_some hl
    by_cases h2 : p.2 <;> simp [h2] at h <;>
      exact h.1 ▸ hp

/-- A screen row strictly below the usable height is also strictly below
the positive bound `max(available_height, 1)`. -/
theorem int_lt_cast_max_one {y : Int} {a : Nat} (h : y < (a : Int)) :
    y < ((max a 1 : Nat) : Int) :=
  lt_of_lt_of_le h (by exact_mod_cast Nat.le_max_left a 1)

/-- A freshly started pager on any terminal accepted by `Vim::startup`
has its cursor screen row at 0, within `[0, max(available_height, 1))`
even on a one-row terminal (usable height 0). -/
theorem vimInit_bounds (contents : Str) (w h : Nat) (hw : 1 ≤ w) (hh : 1 ≤ h) :
    0 ≤ (getCursorScreen (vimInit (File.new contents) w h)).2 ∧
      (getCursorScreen (vimInit (File.new contents) w h)).2 <
        ((max (vimInit (File.new contents) w h).available_height 1 : Nat) : Int) := by
  simp only [getCursorScreen, vimInit]
  norm_num

/-- Processing an input byte in the pager preserves the cursor-onscreen
invariant: every byte either leaves the state unchanged or rescrolls via
`Vim::update_cursor`. -/
theorem vimData_some_bounds {fuel data : Nat} {v v₂ : Vim} {out : Str}
    (hb : 0 ≤ (getCursorScreen v).2 ∧
      (getCursorScreen v).2 < ((max v.available_height 1 : Nat) : Int))
    (h : vimData fuel data v = some (v₂, out)) :
    0 ≤ (getCursorScreen v₂).2 ∧
      (getCursorScreen v₂).2 < ((max v₂.available_height 1 : Nat) : Int) := by
  unfold vimData at h
  by_cases hr : 104 ≤ data ∧ data ≤ 108
  · rw [if_pos hr] at h
    by_cases hhl : data = 104 ∨ data = 108
    · rw [if_pos hhl] at h
      cases hl : v.file.lines.get? v.cursor_pos.2 with
      | none => rw [hl] at h; exact absurd h (by simp)
      | some line =>
        rw [hl] at h
        dsimp only at h
        by_cases h1 : v.cursor_pos.1 ≥ line.length.max 1 - 1
        · rw [if_pos h1] at h
          by_cases h2 : (if data = 104 then (-1 : Int) else 1) < 0
          · rw [if_pos h2] at h
            have := vimUpdateCursor_some h
            exact ⟨this.1, int_lt_cast_max_one this.2.1⟩
          · rw [if_neg h2] at h
            obtain ⟨rfl, -⟩ : v = v₂ ∧ [] = out := by simpa using h
            exact hb
        · rw [if_neg h1] at h
          have := vimUpdateCursor_some h
          exact ⟨this.1, int_lt_cast_max_one this.2.1⟩
    · rw [if_neg hhl] at h
      by_cases hjk : data = 106 ∨ data = 107
      · rw [if_pos hjk] at h
        by_cases h0 : v.file.lines.length = 0
        · rw [if_pos h0] at h; exact absurd h (by simp)
        · rw [if_neg h0] at h
          have := vimUpdateCursor_some h
          exact ⟨this.1, int_lt_cast_max_one this.2.1⟩
      · rw [if_neg hjk] at h; exact absurd h (by simp)
  · rw [if_neg hr] at h
    by_cases h36 : data = 36
    · rw [if_pos h36] at h
      have := vimUpdateCursor_some h
      exact ⟨this.1, int_lt_cast_max_one this.2.1⟩
    · rw [if_neg h36] at h
      obtain ⟨rfl, -⟩ : v = v₂ ∧ [] = out := by simpa using h
      exact hb

/-- Resizing the pager re-establishes the cursor-onscreen invariant for
the new usable height. -/
theorem vimResize_some_bounds {fuel w h : Nat} {v v₂ : Vim} {out : Str}
    (hres : vimResize fuel w h v = some (v₂, out)) :
    0 ≤ (getCursorScreen v₂).2 ∧
      (getCursorScreen v₂).2 < ((max v₂.available_height 1 : Nat) : Int) := by
  unfold vimResize at hres
  by_cases h0 : h = 0
  · rw [if_pos h0] at hres; exact absurd hres (by simp)
  · rw [if_neg h0] at hres
    dsimp only at hres
    cases hu : vimUpdateCursor fuel
        { v with term_size := (w % 65536, h % 65536), available_height := h - 1 } with
    | none => rw [hu] at hres; exact absurd hres (by simp)
    | some p =>
      rw [hu] at hres
      have hp := vimUpdateCursor_some hu
      obtain ⟨rfl, -⟩ : p.1 = v₂ ∧ p.2 ++ render p.1 = out := by simpa using hres
      exact ⟨hp.1, int_lt_cast_max_one hp.2.1⟩

/-- C2 counterexample.  `Vim::startup` accepts a one-row terminal (the
session layer stores client sizes unchecked), so a freshly started pager
with usable height 0 is a reachable, non-panicking state, and its cursor
screen row 0 does not lie in `[0, available_height) = [0, 0)`. -/
theorem cursor_screen_bound_counterexample :
    VimReach (vimInit (File.new (("hi").data)) 4 1) ∧
      ¬(0 ≤ (getCursorScreen (vimInit (File.new (("hi").data)) 4 1)).2 ∧
        (getCursorScreen (vimInit (File.new (("hi").data)) 4 1)).2 <
          ((vimInit (File.new (("hi").data)) 4 1).available_height : Int)) :=
  ⟨VimReach.start (("hi").data) 4 1 (by decide) (by decide) (by decide) (by decide),
   by decide⟩

/-- C2 (amended).  Every pager state reachable from a freshly started
pager by movement keys and resizes keeps the computed cursor screen row
within `[0, max(available_height, 1))`; whenever at least one row is
usable this is the original bound `[0, available_height)`, and the only
reachable exception is a pager freshly started on a one-row terminal
(usable height 0), where the screen row is 0. -/
theorem reachable_cursor_screen_in_bounds (v : Vim) (hv : VimReach v) :
    (0 ≤ (getCursorScreen v).2 ∧
      (getCursorScreen v).2 < ((max v.available_height 1 : Nat) : Int)) ∧
      (1 ≤ v.available_height →
        (getCursorScreen v).2 < (v.available_height : Int)) := by
  have hmax : 0 ≤ (getCursorScreen v).2 ∧
      (getCursorScreen v).2 < ((max v.available_height 1 : Nat) : Int) := by
    induction hv with
    | start contents w h hw hw₂ hh hh₂ => exact vimInit_bounds contents w h hw hh
    | key v v₂ out fuel data hr hstep ih => exact vimData_some_bounds ih hstep
    | resize v v₂ out fuel w h hr hstep ih => exact vimResize_some_bounds hstep
  refine ⟨hmax, fun h1 => ?_⟩
  have h2 := hmax.2
  rw [Nat.max_eq_left h1] at h2
  exact h2

/-- Witness for C2's amended statement at a concrete freshly started
pager with two usable rows. -/
theorem reachable_cursor_screen_in_bounds_witness :
    (0 ≤ (getCursorScreen (vimInit (File.new (("hi").data)) 4 3)).2 ∧
      (getCursorScreen (vimInit (File.new (("hi").data)) 4 3)).2 <
        ((max (vimInit (File.new (("hi").data)) 4 3).available_height 1 : Nat) : Int)) ∧
      (1 ≤ (vimInit (File.new (("hi").data)) 4 3).available_height →
        (getCursorScreen (vimInit (File.new (("hi").data)) 4 3)).2 <
          ((vimInit (File.new (("hi").data)) 4 3).available_height : Int)) :=
  reachable_cursor_screen_in_bounds _
    (VimReach.start (("hi").data) 4 3 (by decide) (by decide) (by decide) (by decide))

/-- C1 counterexample.  In the spec's scenario (lines `["abc","defgh"]`,
width 3, two usable rows, scroll `(0,0)`) the second rendered row is the
empty wrap-continuation of line 0, not `"def"`: because `"abc"` has length
exactly one width, the renderer treats it as wrapping. -/
theorem render_rows_scenario_counterexample :
    renderRows 3 2 [("abc").data, ("defgh").data] 0 = [("abc").data, []] ∧
      (renderRows 3 2 [("abc").data, ("defgh").data] 0).get? 1 ≠ some (("def").data) := by
  decide

/-- C1 (amended).  In the scenario row 0 is `"abc"` and row 1 is the empty
continuation of file line 0; in general a row stays on the same file line
(emitting exactly `width` characters and advancing the intra-line offset
by `width`) exactly when the line's remaining length is at least one
width (not strictly more), and otherwise emits the remainder and advances
to the next file line with offset 0. -/
theorem render_rows_wrap_rule :
    renderRows 3 2 [("abc").data, ("defgh").data] 0 = [("abc").data, []] ∧
      ∀ (width rows start : Nat) (line : Str) (rest : List Str),
        (start + width ≤ line.length →
          renderRows width (rows + 1) (line :: rest) start =
            (line.drop start).take width :: renderRows width rows (line :: rest) (start + width)) ∧
        (line.length < start + width →
          renderRows width (rows + 1) (line :: rest) start =
            line.drop start :: renderRows width rows rest 0) := by
  refine ⟨by decide, ?_⟩
  intro width rows start line rest
  constructor
  · intro h
    simp only [renderRows, if_pos h]
  · intro h
    simp only [renderRows]
    rw [if_neg (by omega)]

/-- Witness for C1's amended wrap rule at a concrete line. -/
theorem render_rows_wrap_rule_witness :
    renderRows 3 2 [("defgh").data] 0 =
        ((("defgh").data).drop 0).take 3 :: renderRows 3 1 [("defgh").data] 3 ∧
      renderRows 3 1 [("defgh").data] 3 =
        (("defgh").data).drop 3 :: renderRows 3 0 [] 0 :=
  ⟨(render_rows_wrap_rule.2 3 1 0 (("defgh").data) []).1 (by decide),
   (render_rows_wrap_rule.2 3 0 3 (("defgh").data) []).2 (by decide)⟩

/-- C3 counterexample.  Calling the cursor-update routine twice with no
intervening change does not return an empty byte sequence the second
time: it returns the cursor-move escape. -/
theorem update_cursor_second_call_nonempty :
    (vimUpdateCursor 2 exVim).bind (fun p => vimUpdateCursor 2 p.1) =
        some (exVim, ("\x1b[1;1H").data) ∧
      (("\x1b[1;1H").data : Str) ≠ [] := by
  decide

/-- C3 (amended).  If the cursor-update routine completes, invoking it
again with no intervening change leaves the state unchanged and performs
no scroll or re-render, returning exactly the (never empty) cursor-move
escape sequence rather than an empty byte sequence. -/
theorem update_cursor_second_call_moves_only :
    ∀ (fuel₁ fuel₂ : Nat) (v v₂ : Vim) (out : Str),
      vimUpdateCursor fuel₁ v = some (v₂, out) →
      vimUpdateCursor (fuel₂ + 1) v₂ =
          some (v₂, moveCursor ((getCursorScreen v₂).1.toNat % 65536)
            ((getCursorScreen v₂).2.toNat % 65536)) ∧
        moveCursor ((getCursorScreen v₂).1.toNat % 65536)
          ((getCursorScreen v₂).2.toNat % 65536) ≠ [] := by
  intro fuel₁ fuel₂ v v₂ out h
  obtain ⟨hy0, hy1, -, -, -, -, hw⟩ := vimUpdateCursor_some h
  constructor
  · unfold vimUpdateCursor updateCursorLoop
    rw [if_neg hw, if_neg (by omega), if_neg (by omega)]
    rfl
  · simp [moveCursor]

/-- Witness for C3's amended statement at a concrete pager state. -/
theorem update_cursor_second_call_moves_only_witness :
    vimUpdateCursor 2 exVim = some (exVim, ("\x1b[1;1H").data) ∧
      (vimUpdateCursor 1 exVim =
          some (exVim, moveCursor ((getCursorScreen exVim).1.toNat % 65536)
            ((getCursorScreen exVim).2.toNat % 65536)) ∧
        moveCursor ((getCursorScreen exVim).1.toNat % 65536)
          ((getCursorScreen exVim).2.toNat % 65536) ≠ []) :=
  ⟨by decide,
   update_cursor_second_call_moves_only 2 0 exVim exVim (("\x1b[1;1H").data) (by decide)⟩

/-- C8 counterexample.  Two pager states that agree on file, scroll
position and terminal size but differ in cursor position render different
bytes (the final cursor-move escape differs), so render is not a function
of (file, scroll, size) alone. -/
theorem render_cursor_dependence_counterexample :
    exVimTwoLines.file = exVimTwoLinesMoved.file ∧
      exVimTwoLines.scroll_pos = exVimTwoLinesMoved.scroll_pos ∧
      exVimTwoLines.term_size = exVimTwoLinesMoved.term_size ∧
      exVimTwoLines.available_height = exVimTwoLinesMoved.available_height ∧
      render exVimTwoLines ≠ render exVimTwoLinesMoved := by
  decide

/-- C8 (amended).  Render is a pure, deterministic function of (file,
scroll position, terminal size, and cursor position): two pager states
agreeing on all four render byte-for-byte identical output, and in
particular re-rendering an unchanged state twice yields identical bytes. -/
theorem render_pure_function :
    ∀ u v : Vim, u.file = v.file → u.scroll_pos = v.scroll_pos →
      u.term_size = v.term_size → u.available_height = v.available_height →
      u.cursor_pos = v.cursor_pos → render u = render v := by
  intro u v h1 h2 h3 h4 h5
  have : u = v := by
    cases u; cases v; simp_all
  rw [this]

/-- Witness for C8's amended statement: re-rendering the same concrete
state. -/
theorem render_pure_function_witness :
    render exVimTwoLines = render exVimTwoLines :=
  render_pure_function exVimTwoLines exVimTwoLines rfl rfl rfl rfl rfl

/-- A hit in an association-list lookup is a member of the list. -/
theorem assocLookup_mem {α : Type} {k : Str} {l : List (Str × α)} {v : α}
    (h : assocLookup k l = some v) : (k, v) ∈ l := by
  induction l with
  | nil => simp [assocLookup] at h
  | cons pr rest ih =>
    obtain ⟨k₂, v₂⟩ := pr
    unfold assocLookup at h
    by_cases he : k₂ = k
    · rw [if_pos he] at h
      obtain rfl : v₂ = v := by simpa using h
      simp [he]
    · rw [if_neg he] at h
      exact List.mem_cons_of_mem _ (ih h)

/-- The walking loop of `dir_at` agrees with the specification-side
segment walk on every well-formed content arena. -/
theorem dirAtAux_eq_resolveSpecAux {c : SshContent} (hwf : ContentWf c) :
    ∀ (segs : List Str) (d : Directory), d ∈ c.directories →
      dirAtAux c d segs = resolveSpecAux c d segs := by
  intro segs
  induction segs with
  | nil => intro d hd; rfl
  | cons seg rest ih =>
    intro d hd
    unfold dirAtAux resolveSpecAux resolveStep
    by_cases h1 : seg = [] ∨ seg = ['.']
    · rw [if_pos h1, if_pos h1]
      simpa using ih d hd
    · rw [if_neg h1, if_neg h1]
      by_cases h2 : seg = ['.', '.']
      · rw [if_pos h2, if_pos h2]
        cases hp : d.parent with
        | none => simpa using ih d hd
        | some p =>
          have hplt : p < c.directories.length :=
            ((hwf.2 d hd).1) p (by simp [hp])
          obtain ⟨d₂, hd₂⟩ : ∃ x, c.directories.get? p = some x :=
            ⟨_, List.get?_eq_get hplt⟩
          have hd₃ : c.directories[p]? = some d₂ := by
            simpa [← List.get?_eq_getElem?] using hd₂
          simpa [hd₃] using ih d₂ (List.get?_mem hd₂)
      · rw [if_neg h2, if_neg h2]
        cases hlk : assocLookup seg d.directories with
        | none => simp
        | some i =>
          have hmem : (seg, i) ∈ d.directories := assocLookup_mem hlk
          have hilt : i < c.directories.length := ((hwf.2 d hd).2) (seg, i) hmem
          obtain ⟨d₂, hd₂⟩ : ∃ x, c.directories.get? i = some x :=
            ⟨_, List.get?_eq_get hilt⟩
          have hd₃ : c.directories[i]? = some d₂ := by
            simpa [← List.get?_eq_getElem?] using hd₂
          simpa [hd₃] using ih d₂ (List.get?_mem hd₂)

/-- C9.  On a well-formed content arena, `dir_at` resolves a
`/`-separated path exactly as the specification describes: walking
segments from the root, treating empty segments and `.` as no-ops and
`..` as parent traversal (a no-op at the root), descending into named
children, and failing exactly when a segment names no child of the
directory reached so far (`resolveSpec` fails only in its child-lookup
case). -/
theorem dir_at_matches_spec_resolution :
    ∀ (c : SshContent), ContentWf c → ∀ path : Str, dirAt c path = resolveSpec c path := by
  intro c hwf path
  unfold dirAt resolveSpec
  cases hr : c.directories.get? 0 with
  | none => rfl
  | some root =>
    simpa using dirAtAux_eq_resolveSpecAux hwf (splitSep '/' path) root (List.get?_mem hr)

/-- Witness for C9: resolution on the concrete example content. -/
theorem dir_at_matches_spec_resolution_witness :
    ContentWf exContent ∧
      dirAt exContent (("projects/.././projects/sub").data) =
        resolveSpec exContent (("projects/.././projects/sub").data) :=
  ⟨by decide,
   dir_at_matches_spec_resolution exContent (by decide) (("projects/.././projects/sub").data)⟩

/-- A list without the separator has no last-separator split. -/
theorem rsplitOnce_eq_none {sep : Char} {l : Str} (h : sep ∉ l) :
    rsplitOnce sep l = none := by
  induction l with
  | nil => rfl
  | cons c rest ih =>
    unfold rsplitOnce
    rw [ih (fun hm => h (List.mem_cons_of_mem _ hm))]
    have hc : ¬(c = sep) := fun he => h (by rw [he]; exact List.mem_cons_self sep rest)
    rw [if_neg hc]

/-- Splitting `sub ++ '/' :: name` at the last slash yields `(sub, name)`
whenever `name` itself contains no slash. -/
theorem rsplitOnce_append {sub name : Str} (h : '/' ∉ name) :
    rsplitOnce '/' (sub ++ '/' :: name) = some (sub, name) := by
  induction sub with
  | nil =>
    simp only [List.nil_append]
    unfold rsplitOnce
    rw [rsplitOnce_eq_none h]
    simp
  | cons c rest ih =>
    simp only [List.cons_append]
    unfold rsplitOnce
    rw [ih]

/-- C10.  For a directory at arena index `i` (non-root) and a relative
path `sub/name` (one directory component, no leading slash), `get_file`
builds the lookup path by concatenating the directory's stored path and
`sub` with no `/` separator, so the lookup resolves `d.path ++ sub`
instead of the child directory `sub`; and child directories created by
`add_child` under a non-root parent get the path `parent.path ++ "/" ++
name` (so non-root paths never end in `/`). -/
theorem get_file_relative_missing_separator :
    (∀ (c : SshContent) (i : Nat) (d : Directory) (sub name : Str),
      c.directories.get? i = some d → i ≠ 0 → sub ≠ [] → '/' ∉ sub → '/' ∉ name →
      getFile c i (sub ++ '/' :: name) =
        (dirAt c (d.path ++ sub)).bind fun d₂ => assocLookup name d₂.files) ∧
    (∀ (c : SshContent) (parent_i : Nat) (n : Str) (r : SshContent × Nat),
      parent_i ≠ 0 → addChild c parent_i n = some r →
      ∃ parent, c.directories.get? parent_i = some parent ∧
        r.1.directories.get? r.2 =
          some { path := parent.path ++ '/' :: n, parent := some parent_i
                 directories := [], files := [] }) := by
  constructor
  · intro c i d sub name hget hi hsub hslash hname
    unfold getFile
    rw [rsplitOnce_append hname]
    dsimp only
    have hcond : ¬(sub.head? = some '/' ∨ sub = []) := by
      rintro (hh | hh)
      · cases sub with
        | nil => simp at hh
        | cons a t =>
          obtain rfl : a = '/' := by simpa using hh
          exact hslash (List.mem_cons_self _ _)
      · exact hsub hh
    rw [if_neg hcond, hget]
    rfl
  · intro c parent_i n r hpi hadd
    unfold addChild at hadd
    cases hget : c.directories.get? parent_i with
    | none => rw [hget] at hadd; exact absurd hadd (by simp)
    | some parent =>
      rw [hget] at hadd
      refine ⟨parent, rfl, ?_⟩
      obtain rfl : (⟨(c.directories.set parent_i
          { parent with directories := parent.directories ++ [(n, c.directories.length)] })
            ++ [{ path := (parent.path ++ if parent_i ≠ 0 then ['/'] else []) ++ n
                  parent := some parent_i, directories := [], files := [] }]⟩,
          c.directories.length) = r := by
        simpa using hadd
      dsimp only
      have hlen : (c.directories.set parent_i
          { parent with directories := parent.directories ++ [(n, c.directories.length)] }).length
            = c.directories.length := List.length_set _ _ _
      rw [List.get?_eq_getElem?]
      have hcat := List.getElem?_concat_length
        (c.directories.set parent_i
          { parent with directories := parent.directories ++ [(n, c.directories.length)] })
        ({ path := (parent.path ++ if parent_i ≠ 0 then ['/'] else []) ++ n
           parent := some parent_i, directories := [], files := [] } : Directory)
      rw [hlen] at hcat
      rw [hcat]
      simp [hpi, List.append_assoc]

/-- Witness for C10 at the concrete example content: looking up
`sub/f.txt` from `/projects` targets the nonexistent path
`/projectssub`, and adding a child under `/projects` yields the path
`/projects/newdir`. -/
theorem get_file_relative_missing_separator_witness :
    (exContent.directories.get? 1 = some
        { path := ("/projects").data, parent := some 0
          directories := [(("sub").data, 2)], files := [] } ∧
      getFile exContent 1 ((("sub").data) ++ '/' :: (("f.txt").data)) =
        (dirAt exContent ((("/projects").data) ++ ("sub").data)).bind
          fun d₂ => assocLookup (("f.txt").data) d₂.files) ∧
    (addChild exContent 1 (("newdir").data) = some exAddChild ∧
      ∃ parent, exContent.directories.get? 1 = some parent ∧
        exAddChild.1.directories.get? exAddChild.2 =
          some { path := parent.path ++ '/' :: (("newdir").data), parent := some 1
                 directories := [], files := [] }) :=
  ⟨⟨by decide,
    get_file_relative_missing_separator.1 exContent 1
      { path := ("/projects").data, parent := some 0
        directories := [(("sub").data, 2)], files := [] }
      (("sub").data) (("f.txt").data) (by decide) (by decide) (by decide)
      (by decide) (by decide)⟩,
   ⟨by decide,
    get_file_relative_missing_separator.2 exContent 1 (("newdir").data) exAddChild
      (by decide) (by decide)⟩⟩

/-- C7.  Dispatching a `vi` command that names no file, or one with no
argument, prints the plain-text error line (followed by the reprinted
prompt, since no app started) and leaves the session completely
unchanged: the pager never starts, `running_app` stays `none`, and the
shell and current directory are untouched. -/
theorem vi_startup_failure_atomic :
    ∀ (domain : Str) (s : SshSession) (command : Str),
      ((splitSep ' ' command).get? 0).getD [] = ("vi").data →
      s.running_app = none →
      (((splitSep ' ' command).get? 1 = none →
          sessionRunCommand domain s command =
            some (s, (("vi: usage: vi <filename>\r\n").data) ++ prompt domain s, false)) ∧
        (∀ p, (splitSep ' ' command).get? 1 = some p →
          getFile s.content s.current_dir p = none →
          sessionRunCommand domain s command =
            some (s, ((("vi: cannot open \"").data ++ p ++ ("\": No such file\r\n").data)
              ++ prompt domain s), false))) := by
  intro domain s command hname happ
  unfold sessionRunCommand
  rw [hname]
  rw [if_neg (by decide)]
  dsimp only
  rw [if_neg (by decide), if_neg (by decide), if_neg (by decide), if_neg (by decide),
    if_pos (by decide)]
  constructor
  · intro h1
    unfold vimStartup
    rw [h1]
    simp [happ]
  · intro p h1 h2
    unfold vimStartup
    rw [h1]
    dsimp only
    rw [h2]
    simp [happ]

/-- Witness for C7: both failure modes on the concrete example session. -/
theorem vi_startup_failure_atomic_witness :
    (sessionRunCommand (("d").data) exSession (("vi").data) =
        some (exSession, (("vi: usage: vi <filename>\r\n").data) ++
          prompt (("d").data) exSession, false)) ∧
      (sessionRunCommand (("d").data) exSession (("vi nosuch.txt").data) =
        some (exSession, ((("vi: cannot open \"").data ++ ("nosuch.txt").data ++
          ("\": No such file\r\n").data) ++ prompt (("d").data) exSession), false)) :=
  ⟨(vi_startup_failure_atomic (("d").data) exSession (("vi").data)
      (by decide) (by decide)).1 (by decide),
   (vi_startup_failure_atomic (("d").data) exSession (("vi nosuch.txt").data)
      (by decide) (by decide)).2 (("nosuch.txt").data) (by decide) (by decide)⟩

/-- Setting an index that is in range makes the lookup at that index
return the new value. -/
theorem get?_set_self {α : Type} : ∀ (l : List α) (i : Nat) (a : α), i < l.length →
    (l.set i a).get? i = some a
  | [], i, a, h => by simp at h
  | x :: t, 0, a, h => rfl
  | x :: t, i + 1, a, h => by
    simpa using get?_set_self t i a (by simpa using h)

/-- Erasing an in-range index shortens the list by one. -/
theorem length_eraseIdx_of_lt {α : Type} : ∀ (l : List α) (i : Nat), i < l.length →
    (l.eraseIdx i).length = l.length - 1
  | [], i, h => by simp at h
  | x :: t, 0, h => by simp
  | x :: t, i + 1, h => by
    have := length_eraseIdx_of_lt t i (by simpa using h)
    simp only [List.eraseIdx, List.length_cons, this]
    have : 1 ≤ t.length := by
      have h₂ : i < t.length := by simpa using h
      omega
    omega

/-- Inserting at an index that is at most the length grows the list by
one. -/
theorem length_insertIdx_of_le {α : Type} : ∀ (l : List α) (i : Nat) (a : α), i ≤ l.length →
    (l.insertIdx i a).length = l.length + 1
  | l, 0, a, h => by simp [List.insertIdx]
  | [], i + 1, a, h => by simp at h
  | x :: t, i + 1, a, h => by
    have hstep : (x :: t).insertIdx (i + 1) a = x :: t.insertIdx i a := rfl
    rw [hstep, List.length_cons, length_insertIdx_of_le t i a (by simpa using h),
      List.length_cons]

/-- When the working history already covers the browse index, the
materialisation loop is a no-op. -/
theorem extendCurrent_of_lt {history cur : List Str} {idx : Nat} (h : idx < cur.length) :
    extendCurrent history cur idx = cur := by
  unfold extendCurrent
  rw [if_neg (by omega)]

/-- Fuel-indexed length computation for the materialisation loop. -/
theorem extendCurrent_length_fuel (history : List Str) :
    ∀ (fuel : Nat) (cur : List Str) (idx : Nat), idx + 1 - cur.length ≤ fuel →
      (extendCurrent history cur idx).length = max cur.length (idx + 1) := by
  intro fuel
  induction fuel with
  | zero =>
    intro cur idx hf
    rw [extendCurrent_of_lt (by omega)]
    omega
  | succ n ih =>
    intro cur idx hf
    by_cases h : cur.length ≤ idx
    · unfold extendCurrent
      rw [if_pos h]
      rw [ih _ idx (by simp; omega)]
      simp
      omega
    · rw [extendCurrent_of_lt (by omega)]
      omega

/-- The materialisation loop's resulting length: the old length or enough
to cover the index, whichever is larger. -/
theorem length_extendCurrent (history cur : List Str) (idx : Nat) :
    (extendCurrent history cur idx).length = max cur.length (idx + 1) :=
  extendCurrent_length_fuel history (idx + 1) cur idx (by omega)

/-- Fuel-indexed form: the materialisation loop only appends. -/
theorem extendCurrent_prefix_fuel (history : List Str) :
    ∀ (fuel : Nat) (cur : List Str) (idx : Nat), idx + 1 - cur.length ≤ fuel →
      ∃ ext, extendCurrent history cur idx = cur ++ ext := by
  intro fuel
  induction fuel with
  | zero =>
    intro cur idx hf
    exact ⟨[], by rw [extendCurrent_of_lt (by omega)]; simp⟩
  | succ n ih =>
    intro cur idx hf
    by_cases h : cur.length ≤ idx
    · unfold extendCurrent
      rw [if_pos h]
      obtain ⟨ext, hext⟩ := ih (cur ++ [(history.get? (history.length - cur.length)).getD []])
        idx (by simp; omega)
      exact ⟨[(history.get? (history.length - cur.length)).getD []] ++ ext,
        by rw [hext, List.append_assoc]⟩
    · exact ⟨[], by rw [extendCurrent_of_lt (by omega)]; simp⟩

/-- The materialisation loop only appends to the working history. -/
theorem extendCurrent_prefix (history cur : List Str) (idx : Nat) :
    ∃ ext, extendCurrent history cur idx = cur ++ ext :=
  extendCurrent_prefix_fuel history (idx + 1) cur idx (by omega)

/-- Under the shell invariant, `get_line` is the identity: the index is
already clamped and the working history already covers it. -/
theorem getLine_of_inv {s : Shell} (h : ShellInv s) : getLine s = s := by
  obtain ⟨h1, h2, h3, h4⟩ := h
  unfold getLine
  dsimp only
  rw [min_eq_left (by omega), extendCurrent_of_lt h2]

/-- The effect of `get_line` on an arbitrary shell whose working history
is nonempty and bounded: indices get clamped, the working history is only
appended to (preserving entry 0), and everything else is untouched. -/
theorem getLine_props {s : Shell} (h1 : s.current_history ≠ [])
    (h3 : s.current_history.length ≤ s.history.length + 1) :
    (getLine s).current_history ≠ [] ∧
      (getLine s).history_index < (getLine s).current_history.length ∧
      (getLine s).current_history.length ≤ (getLine s).history.length + 1 ∧
      (getLine s).history = s.history ∧
      (getLine s).cursor = s.cursor ∧
      (getLine s).escape = s.escape ∧
      (getLine s).history_index = min s.history_index s.history.length ∧
      (getLine s).current_history.get? 0 = s.current_history.get? 0 := by
  have hcur : 0 < s.current_history.length := List.length_pos.mpr h1
  obtain ⟨ext, hext⟩ :=
    extendCurrent_prefix s.history s.current_history (min s.history_index s.history.length)
  have hlen := length_extendCurrent s.history s.current_history
    (min s.history_index s.history.length)
  unfold getLine
  dsimp only
  refine ⟨?_, ?_, ?_, rfl, rfl, rfl, rfl, ?_⟩
  · rw [hext]
    simp [h1]
  · rw [hlen]
    omega
  · rw [hlen]
    omega
  · rw [hext]
    exact List.get?_append hcur

/-- Processing a byte of an escape sequence preserves the shell
invariant. -/
theorem shellInv_processEscape {s : Shell} (h : ShellInv s) (b : Nat) :
    ShellInv (processEscape s b).1 := by
  obtain ⟨i1, i2, i3, i4⟩ := h
  have h : ShellInv s := ⟨i1, i2, i3, i4⟩
  unfold processEscape
  dsimp only
  by_cases hlen : (s.escape ++ [b]).length = 3
  · rw [if_pos hlen]
    have hinv₁ : ShellInv { s with escape := s.escape ++ [b] } := h
    rw [getLine_of_inv hinv₁]
    dsimp only
    by_cases e1 : s.escape ++ [b] = [27, 91, 68]
    · rw [if_pos e1]
      by_cases hc : s.cursor > 0
      · rw [if_pos hc]
        refine ⟨i1, i2, i3, ?_⟩
        simp only [currentLine] at i4 ⊢
        omega
      · rw [if_neg hc]
        exact h
    · rw [if_neg e1]
      by_cases e2 : s.escape ++ [b] = [27, 91, 67]
      · rw [if_pos e2]
        by_cases hc : s.cursor < (currentLine { s with escape := s.escape ++ [b] }).length
        · rw [if_pos hc]
          refine ⟨i1, i2, i3, ?_⟩
          simp only [currentLine] at hc ⊢
          omega
        · rw [if_neg hc]
          exact h
      · rw [if_neg e2]
        by_cases e3 : s.escape ++ [b] = [27, 91, 65] ∨ s.escape ++ [b] = [27, 91, 66]
        · rw [if_pos e3]
          by_cases e4 : (s.escape ++ [b]).get? 2 = some 66 ∧ s.history_index = 0
          · rw [if_pos e4]
            exact h
          · rw [if_neg e4]
            by_cases e5 : (s.escape ++ [b]).get? 2 = some 65
            · rw [if_pos e5]
              have hp := getLine_props
                (s := { s with escape := ([] : List Nat), history_index := s.history_index + 1 })
                i1 i3
              refine ⟨hp.1, hp.2.1, hp.2.2.1, ?_⟩
              exact Nat.le_refl _
            · rw [if_neg e5]
              have hp := getLine_props
                (s := { s with escape := ([] : List Nat), history_index := s.history_index - 1 })
                i1 i3
              refine ⟨hp.1, hp.2.1, hp.2.2.1, ?_⟩
              exact Nat.le_refl _
        · rw [if_neg e3]
          exact h
  · rw [if_neg hlen]
    exact h

/-- Processing one input byte preserves the shell invariant; in
particular the cursor stays within the current editable line. -/
theorem shellInv_process {s : Shell} (h : ShellInv s) (b : Nat) :
    ShellInv (shellProcess s b).1 := by
  obtain ⟨i1, i2, i3, i4⟩ := h
  have h : ShellInv s := ⟨i1, i2, i3, i4⟩
  unfold shellProcess
  by_cases hesc : s.escape ≠ []
  · rw [if_pos hesc]
    rcases hpe : processEscape s b with ⟨s₂, out⟩
    dsimp only
    have hq := shellInv_processEscape h b
    rw [hpe] at hq
    exact hq
  · rw [if_neg hesc]
    rw [getLine_of_inv h]
    dsimp only
    by_cases h13 : b = 13 ∨ b = 10
    · rw [if_pos h13]
      exact ⟨by simp, by simp, by simp, by simp [currentLine]⟩
    · rw [if_neg h13]
      by_cases h8 : b = 8 ∨ b = 127
      · rw [if_pos h8]
        by_cases hc : s.cursor > 0
        · rw [if_pos hc]
          have hlen₂ : ((currentLine s).eraseIdx (s.cursor - 1)).length =
              (currentLine s).length - 1 :=
            length_eraseIdx_of_lt _ _ (by omega)
          have hinv₂ : ShellInv
              { s with
                current_history :=
                  s.current_history.set s.history_index ((currentLine s).eraseIdx (s.cursor - 1)),
                cursor := s.cursor - 1 } := by
            refine ⟨?_, ?_, ?_, ?_⟩
            · exact List.ne_nil_of_length_pos (by simp only [List.length_set]; omega)
            · simp only [List.length_set]
              exact i2
            · simp only [List.length_set]
              exact i3
            · simp only [currentLine, get?_set_self _ _ _ i2, Option.getD_some]
              simp only [currentLine] at hlen₂ i4
              omega
          split
          · exact hinv₂
          · exact hinv₂
        · rw [if_neg hc]
          exact h
      · rw [if_neg h8]
        by_cases h3 : b = 3
        · rw [if_pos h3]
          exact ⟨by simp, by simp, by simp, by simp [currentLine]⟩
        · rw [if_neg h3]
          by_cases h4 : b = 4
          · rw [if_pos h4]
            exact h
          · rw [if_neg h4]
            by_cases h1b : b = 1
            · rw [if_pos h1b]
              exact ⟨i1, i2, i3, by simp only [currentLine]; omega⟩
            · rw [if_neg h1b]
              by_cases h5 : b = 5
              · rw [if_pos h5]
                exact ⟨i1, i2, i3, Nat.le_refl _⟩
              · rw [if_neg h5]
                by_cases h27 : b = 27
                · rw [if_pos h27]
                  exact h
                · rw [if_neg h27]
                  by_cases h32 : 32 ≤ b
                  · rw [if_pos h32]
                    have hlen₂ : ((currentLine s).insertIdx s.cursor (Char.ofNat b)).length =
                        (currentLine s).length + 1 :=
                      length_insertIdx_of_le _ _ _ i4
                    have hinv₂ : ShellInv
                        { s with
                          current_history := s.current_history.set s.history_index
                            ((currentLine s).insertIdx s.cursor (Char.ofNat b)),
                          cursor := s.cursor + 1 } := by
                      refine ⟨?_, ?_, ?_, ?_⟩
                      · exact List.ne_nil_of_length_pos (by simp only [List.length_set]; omega)
                      · simp only [List.length_set]
                        exact i2
                      · simp only [List.length_set]
                        exact i3
                      · simp only [currentLine, get?_set_self _ _ _ i2, Option.getD_some]
                        simp only [currentLine] at hlen₂ i4
                        omega
                    split
                    · exact hinv₂
                    · exact hinv₂
                  · rw [if_neg h32]
                    exact h

/-- `get_line` is the identity as soon as the browse index is covered by
the working history and the working history is within bounds (the cursor
plays no role). -/
theorem getLine_id {s : Shell} (h2 : s.history_index < s.current_history.length)
    (h3 : s.current_history.length ≤ s.history.length + 1) : getLine s = s := by
  unfold getLine
  dsimp only
  rw [min_eq_left (by omega), extendCurrent_of_lt h2]

/-- Feeding the escape byte starts escape accumulation and changes
nothing else. -/
theorem shellProcess_esc_start {s : Shell} (hinv : ShellInv s) (he : s.escape = []) :
    shellProcess s 27 = ({ s with escape := [27] }, [], none) := by
  unfold shellProcess
  rw [if_neg (by simp [he]), getLine_of_inv hinv]
  norm_num

/-- The second byte of an arrow escape is buffered with no other
effect. -/
theorem shellProcess_esc_mid {s : Shell} (he : s.escape = [27]) :
    shellProcess s 91 = ({ s with escape := [27, 91] }, [], none) := by
  unfold shellProcess
  rw [if_pos (by simp [he])]
  unfold processEscape
  rw [he]
  norm_num

/-- Completing an up-arrow escape increments the browse index, reclamps
and rematerialises via `get_line`, and moves the cursor to the end of the
newly shown line. -/
theorem shellProcess_up_fst {s : Shell} (hinv : ShellInv s) (he : s.escape = [27, 91]) :
    (shellProcess s 65).1 =
      { (getLine { s with escape := ([] : List Nat), history_index := s.history_index + 1 }) with
        cursor := (currentLine (getLine { s with escape := ([] : List Nat), history_index := s.history_index + 1 })).length } := by
  unfold shellProcess
  rw [if_pos (by simp [he])]
  unfold processEscape
  rw [he]
  dsimp only
  have hinv₃ : ShellInv { s with escape := [27, 91] ++ [65] } := hinv
  rw [getLine_of_inv hinv₃]
  norm_num

/-- Completing a down-arrow escape at browse depth 0 only clears the
escape buffer. -/
theorem shellProcess_down_fst_zero {s : Shell} (hinv : ShellInv s) (he : s.escape = [27, 91])
    (h0 : s.history_index = 0) :
    (shellProcess s 66).1 = { s with escape := ([] : List Nat) } := by
  unfold shellProcess
  rw [if_pos (by simp [he])]
  unfold processEscape
  rw [he]
  dsimp only
  have hinv₃ : ShellInv { s with escape := [27, 91] ++ [66] } := hinv
  rw [getLine_of_inv hinv₃]
  norm_num [h0]

/-- Completing a down-arrow escape at positive browse depth decrements
the index and moves the cursor to the end of the shallower line; the
working history is already materialised there, so it is unchanged. -/
theorem shellProcess_down_fst_succ {s : Shell} (hinv : ShellInv s) (he : s.escape = [27, 91])
    {k : Nat} (hk : s.history_index = k + 1) :
    (shellProcess s 66).1 =
      { s with
        escape := ([] : List Nat),
        history_index := k,
        cursor := ((s.current_history.get? k).getD []).length } := by
  obtain ⟨i1, i2, i3, i4⟩ := hinv
  unfold shellProcess
  rw [if_pos (by simp [he])]
  unfold processEscape
  rw [he]
  dsimp only
  have hinv₃ : ShellInv { s with escape := [27, 91] ++ [66] } := ⟨i1, i2, i3, i4⟩
  rw [getLine_of_inv hinv₃]
  norm_num [hk]
  have hid : getLine { s with escape := ([] : List Nat), history_index := k } =
      { s with escape := ([] : List Nat), history_index := k } :=
    getLine_id (by dsimp only; omega) (by dsimp only; omega)
  rw [hid]
  simp [currentLine, List.get?_eq_getElem?]

/-- The shell invariant is preserved by whole input sequences. -/
theorem shellInv_processSeq {s : Shell} (h : ShellInv s) (input : List Nat) :
    ShellInv (processSeq s input) := by
  induction input generalizing s with
  | nil => exact h
  | cons b rest ih => exact ih (shellInv_process h b)

/-- C5.  For every sequence of input bytes processed one at a time from
the initial shell state, the cursor offset stays within
`[0, current_line.length]` for the line at the current history index. -/
theorem shell_cursor_in_range (input : List Nat) :
    0 ≤ (processAll input).cursor ∧
      (processAll input).cursor ≤ (currentLine (processAll input)).length := by
  have h : ShellInv (processAll input) := shellInv_processSeq (by decide) input
  exact ⟨Nat.zero_le _, h.2.2.2⟩

/-- Processing a concatenation processes the pieces in order. -/
theorem processSeq_append (s : Shell) (a b : List Nat) :
    processSeq s (a ++ b) = processSeq (processSeq s a) b := by
  simp [processSeq, List.foldl_append]

/-- One more up-arrow in front of a run of up-arrows. -/
theorem upSeq_succ (n : Nat) : upSeq (n + 1) = [27, 91, 65] ++ upSeq n := by
  simp [upSeq, List.replicate_succ]

/-- One more down-arrow in front of a run of down-arrows. -/
theorem dnSeq_succ (n : Nat) : dnSeq (n + 1) = [27, 91, 66] ++ dnSeq n := by
  simp [dnSeq, List.replicate_succ]

/-- The cumulative effect of one complete up-arrow escape: the browse
index saturates at the history length, and the stored history as well as
the depth-0 working line are untouched. -/
theorem processSeq_up_props {s : Shell} (hinv : ShellInv s) (he : s.escape = []) :
    ShellInv (processSeq s [27, 91, 65]) ∧
      (processSeq s [27, 91, 65]).escape = [] ∧
      (processSeq s [27, 91, 65]).history = s.history ∧
      (processSeq s [27, 91, 65]).current_history.get? 0 = s.current_history.get? 0 ∧
      (processSeq s [27, 91, 65]).history_index = min (s.history_index + 1) s.history.length := by
  obtain ⟨i1, i2, i3, i4⟩ := hinv
  have hinv : ShellInv s := ⟨i1, i2, i3, i4⟩
  have hseq : processSeq s [27, 91, 65] =
      (shellProcess (shellProcess (shellProcess s 27).1 91).1 65).1 := rfl
  rw [hseq, shellProcess_esc_start hinv he]
  dsimp only
  rw [shellProcess_esc_mid rfl]
  dsimp only
  have hinv₂ : ShellInv { s with escape := [27, 91] } := hinv
  rw [shellProcess_up_fst hinv₂ rfl]
  have hp := getLine_props
    (s := { s with escape := ([] : List Nat), history_index := s.history_index + 1 }) i1 i3
  obtain ⟨p1, p2, p3, p4, p5, p6, p7, p8⟩ := hp
  refine ⟨⟨p1, p2, p3, Nat.le_refl _⟩, p6, p4, p8, ?_⟩
  exact p7

/-- The cumulative effect of one complete down-arrow escape: the browse
index decrements (no-op at depth 0), and the stored history as well as
the depth-0 working line are untouched. -/
theorem processSeq_down_props {s : Shell} (hinv : ShellInv s) (he : s.escape = []) :
    ShellInv (processSeq s [27, 91, 66]) ∧
      (processSeq s [27, 91, 66]).escape = [] ∧
      (processSeq s [27, 91, 66]).history = s.history ∧
      (processSeq s [27, 91, 66]).current_history.get? 0 = s.current_history.get? 0 ∧
      (processSeq s [27, 91, 66]).history_index = s.history_index - 1 := by
  obtain ⟨i1, i2, i3, i4⟩ := hinv
  have hinv : ShellInv s := ⟨i1, i2, i3, i4⟩
  have hseq : processSeq s [27, 91, 66] =
      (shellProcess (shellProcess (shellProcess s 27).1 91).1 66).1 := rfl
  rw [hseq, shellProcess_esc_start hinv he]
  dsimp only
  rw [shellProcess_esc_mid rfl]
  dsimp only
  have hinv₂ : ShellInv { s with escape := [27, 91] } := hinv
  by_cases h0 : s.history_index = 0
  · rw [shellProcess_down_fst_zero hinv₂ rfl h0]
    exact ⟨⟨i1, i2, i3, i4⟩, rfl, rfl, rfl, by dsimp only; omega⟩
  · obtain ⟨k, hk⟩ : ∃ k, s.history_index = k + 1 := ⟨s.history_index - 1, by omega⟩
    rw [shellProcess_down_fst_succ hinv₂ rfl hk]
    refine ⟨⟨i1, by dsimp only; omega, i3, ?_⟩, rfl, rfl, rfl, by dsimp only; omega⟩
    exact Nat.le_refl _

/-- Effect of a run of `n` up-arrows: the browse index saturates at the
history length; history and the depth-0 line are untouched. -/
theorem ups_props (n : Nat) : ∀ s : Shell, ShellInv s → s.escape = [] →
    ShellInv (processSeq s (upSeq n)) ∧
      (processSeq s (upSeq n)).escape = [] ∧
      (processSeq s (upSeq n)).history = s.history ∧
      (processSeq s (upSeq n)).current_history.get? 0 = s.current_history.get? 0 ∧
      (processSeq s (upSeq n)).history_index = min (s.history_index + n) s.history.length := by
  induction n with
  | zero =>
    intro s h he
    obtain ⟨i1, i2, i3, i4⟩ := h
    have h0 : processSeq s (upSeq 0) = s := rfl
    rw [h0]
    exact ⟨⟨i1, i2, i3, i4⟩, he, rfl, rfl, by omega⟩
  | succ n ih =>
    intro s h he
    rw [upSeq_succ, processSeq_append]
    have h1 := processSeq_up_props h he
    obtain ⟨j1, j2, j3, j4, j5⟩ := ih _ h1.1 h1.2.1
    obtain ⟨i1, i2, i3, i4⟩ := h
    refine ⟨j1, j2, ?_, ?_, ?_⟩
    · rw [j3, h1.2.2.1]
    · rw [j4, h1.2.2.2.1]
    · rw [j5, h1.2.2.2.2, h1.2.2.1]
      omega

/-- Effect of a run of `n` down-arrows covering the current depth: the
browse index returns to 0; history and the depth-0 line are untouched. -/
theorem downs_props (n : Nat) : ∀ s : Shell, ShellInv s → s.escape = [] →
    s.history_index ≤ n →
    ShellInv (processSeq s (dnSeq n)) ∧
      (processSeq s (dnSeq n)).escape = [] ∧
      (processSeq s (dnSeq n)).history = s.history ∧
      (processSeq s (dnSeq n)).current_history.get? 0 = s.current_history.get? 0 ∧
      (processSeq s (dnSeq n)).history_index = 0 := by
  induction n with
  | zero =>
    intro s h he hle
    obtain ⟨i1, i2, i3, i4⟩ := h
    have h0 : processSeq s (dnSeq 0) = s := rfl
    rw [h0]
    exact ⟨⟨i1, i2, i3, i4⟩, he, rfl, rfl, by omega⟩
  | succ n ih =>
    intro s h he hle
    rw [dnSeq_succ, processSeq_append]
    have h1 := processSeq_down_props h he
    obtain ⟨j1, j2, j3, j4, j5⟩ := ih _ h1.1 h1.2.1 (by rw [h1.2.2.2.2]; omega)
    refine ⟨j1, j2, ?_, ?_, j5⟩
    · rw [j3, h1.2.2.1]
    · rw [j4, h1.2.2.2.1]

/-- Escape-sequence processing never writes to the stored command
history: every arm (including the `get_line` rematerialisation, which
only clones history entries into the working copy) leaves it intact. -/
theorem processEscape_history (s : Shell) (b : Nat) :
    (processEscape s b).1.history = s.history := by
  unfold processEscape
  dsimp only
  split_ifs <;> simp [getLine]

/-- Any input byte other than a line submission (CR or LF outside an
escape sequence) leaves the stored command history unchanged: edits,
cursor motion and history browsing live entirely in the per-depth
working copy. -/
theorem shellProcess_history {s : Shell} {b : Nat}
    (h : ¬(s.escape = [] ∧ (b = 13 ∨ b = 10))) :
    (shellProcess s b).1.history = s.history := by
  unfold shellProcess
  by_cases hesc : s.escape ≠ []
  · rw [if_pos hesc]
    rcases hpe : processEscape s b with ⟨s₂, out⟩
    dsimp only
    have hh := processEscape_history s b
    rw [hpe] at hh
    exact hh
  · rw [if_neg hesc]
    have hb : ¬(b = 13 ∨ b = 10) := by tauto
    dsimp only
    rw [if_neg hb]
    split_ifs <;> simp [getLine]

/-- C6.  Starting at history depth 0 with any stored history and any
uncommitted depth-0 line, pressing up `N` times and then down `N` times
returns the browse index to 0 and restores the depth-0 editable line
content; and no input byte short of submitting a line (CR/LF outside an
escape sequence) ever mutates the stored command history, so browsing
and editing historical entries never do. -/
theorem history_roundtrip (N : Nat) (s : Shell) (hinv : ShellInv s)
    (hidx : s.history_index = 0) (he : s.escape = []) :
    ((processSeq s (upSeq N ++ dnSeq N)).history = s.history ∧
      (processSeq s (upSeq N ++ dnSeq N)).current_history.get? 0 =
        s.current_history.get? 0 ∧
      (processSeq s (upSeq N ++ dnSeq N)).history_index = 0 ∧
      currentLine (processSeq s (upSeq N ++ dnSeq N)) =
        (s.current_history.get? 0).getD []) ∧
      ∀ (t : Shell) (b : Nat), ¬(t.escape = [] ∧ (b = 13 ∨ b = 10)) →
        (shellProcess t b).1.history = t.history := by
  refine ⟨?_, fun t b hb => shellProcess_history hb⟩
  rw [processSeq_append]
  obtain ⟨u1, u2, u3, u4, u5⟩ := ups_props N s hinv he
  obtain ⟨d1, d2, d3, d4, d5⟩ := downs_props N _ u1 u2 (by rw [u5, hidx]; omega)
  refine ⟨by rw [d3, u3], by rw [d4, u4], d5, ?_⟩
  unfold currentLine
  rw [d5, d4, u4]

/-- Witness for C6: a concrete shell (two stored commands, an uncommitted
depth-0 line) with two ups and two downs, plus an editing byte (a
printable character inserted while browsing depth 1) that leaves the
stored history untouched. -/
theorem history_roundtrip_witness :
    ShellInv exShell ∧
      ((processSeq exShell (upSeq 2 ++ dnSeq 2)).history = exShell.history ∧
        (processSeq exShell (upSeq 2 ++ dnSeq 2)).current_history.get? 0 =
          exShell.current_history.get? 0 ∧
        (processSeq exShell (upSeq 2 ++ dnSeq 2)).history_index = 0 ∧
        currentLine (processSeq exShell (upSeq 2 ++ dnSeq 2)) =
          (exShell.current_history.get? 0).getD []) ∧
      (shellProcess exShellBrowsing 120).1.history = exShellBrowsing.history :=
  ⟨by decide,
   (history_roundtrip 2 exShell (by decide) (by decide) (by decide)).1,
   (history_roundtrip 2 exShell (by decide) (by decide) (by decide)).2
     exShellBrowsing 120 (by decide)⟩
